import Mathlib

/-!
Verification of the task-list core of a single-screen todo application
(`src/App.tsx`). The in-memory state engine is embedded shallowly: each
React handler that computes a new todo list is modelled as a pure Lean
function on `List Todo`; the persistence layer (AsyncStorage plus the
JSON round trip) is modelled with an explicit store value, and thrown
exceptions are modelled with `Except`.
-/

namespace TodoApp

/-- The `Todo` interface of `App.tsx`: `{ id: string; text: string; completed: boolean }`. -/
structure Todo where
  id : String
  text : String
  completed : Bool
deriving DecidableEq, Repr

/-- The filter union type of `App.tsx`: `"all" | "active" | "completed"`. -/
inductive Filter where
  | all
  | active
  | completed
deriving DecidableEq, Repr

/-- Modelled from the spec: the JS `String.prototype.trim` built-in —
removes leading and trailing whitespace from a string. -/
def jsTrim (s : String) : String :=
  String.mk (((s.data.dropWhile Char.isWhitespace).reverse.dropWhile
    Char.isWhitespace).reverse)

/-- Handler `addTodo` from `App.tsx`: returns unchanged when the trimmed input is empty
(JS `if (!input.trim()) return`), otherwise appends a todo whose id is
`Date.now().toString()` (the current time is passed explicitly as `now`),
whose text is the trimmed input, and whose completed flag is `false`. -/
def addTodo (input : String) (now : Nat) (todos : List Todo) : List Todo :=
  if jsTrim input = "" then todos
  else todos ++ [{ id := Nat.repr now, text := jsTrim input, completed := false }]

/-- Handler `toggleComplete` from `App.tsx`:
`todos.map(t => (t.id === id ? \x7b ...t, completed: !t.completed \x7d : t))`. -/
def toggleComplete (i : String) (todos : List Todo) : List Todo :=
  todos.map fun t => if t.id = i then { t with completed := !t.completed } else t

/-- Handler `deleteTodo` from `App.tsx`: `todos.filter(t => t.id !== id)`. -/
def deleteTodo (i : String) (todos : List Todo) : List Todo :=
  todos.filter fun t => t.id != i

/-- The confirmed branch of `clearCompleted` from `App.tsx`:
`todos.filter(t => !t.completed)`. -/
def clearCompleted (todos : List Todo) : List Todo :=
  todos.filter fun t => !t.completed

/-- The `onDragEnd` handler of the draggable list in `App.tsx`:
`onDragEnd={(\x7b data \x7d) => saveTodos(data)}` — the payload `data` replaces
the whole list, with no validation against the current `todos`. -/
def onDragEnd (data : List Todo) (todos : List Todo) : List Todo :=
  data

/-- Derived list `filteredTodos` from `App.tsx`: `todos.filter` with the two-branch
`if` chain on the current filter. -/
def filteredTodos (filter : Filter) (todos : List Todo) : List Todo :=
  todos.filter fun t =>
    if filter = Filter.active then !t.completed
    else if filter = Filter.completed then t.completed
    else true

/-- Derived count `activeCount` from `App.tsx`: `todos.filter(t => !t.completed).length`,
computed over the unfiltered `todos`. -/
def activeCount (todos : List Todo) : Nat :=
  (todos.filter fun t => !t.completed).length

/-- The view the component hands to the presentation layer:
filtered tasks, the active count, and the current filter. -/
structure DerivedView where
  tasks : List Todo
  activeCount : Nat
  filter : Filter
deriving Repr

/-- The derived view computed on each render of `App.tsx`. -/
def derivedView (filter : Filter) (todos : List Todo) : DerivedView :=
  { tasks := filteredTodos filter todos
    activeCount := activeCount todos
    filter := filter }

/-- Modelled from the spec: the value space of `JSON.parse` / `JSON.stringify`
(platform built-ins, not repository code) — JSON values as a tree. -/
inductive Json where
  | null
  | bool (b : Bool)
  | num (n : Int)
  | str (s : String)
  | arr (elems : List Json)
  | obj (fields : List (String × Json))
deriving Repr

/-- Modelled from the spec: a stored string blob, abstracted by its behaviour
under `JSON.parse` — either it fails to parse, or it parses to a unique
JSON value. -/
inductive Blob where
  | malformed
  | json (j : Json)
deriving Repr

/-- Modelled from the spec: `JSON.parse` — throws on malformed input
(`Except.error`), otherwise returns the parsed value. -/
def jsonParse : Blob → Except Unit Json
  | Blob.malformed => Except.error ()
  | Blob.json j => Except.ok j

/-- Modelled from the spec: the JSON value of one task, the object
`\x7bid: string, text: string, completed: boolean\x7d` written by `JSON.stringify`. -/
def serializeTodo (t : Todo) : Json :=
  Json.obj [("id", Json.str t.id), ("text", Json.str t.text),
            ("completed", Json.bool t.completed)]

/-- Modelled from the spec: the serialized form of the whole list stored at
key `"@todos"` — an array of task objects. -/
def serializeTodos (todos : List Todo) : Json :=
  Json.arr (todos.map serializeTodo)

/-- Modelled from the spec: reading one task object back from its JSON form;
`none` when the value does not have the expected shape. -/
def deserializeTodo : Json → Option Todo
  | Json.obj [("id", Json.str i), ("text", Json.str tx), ("completed", Json.bool c)] =>
      some { id := i, text := tx, completed := c }
  | _ => none

/-- Modelled from the spec: reading a list of task objects back, failing on
the first element without the expected shape. -/
def deserializeList : List Json → Option (List Todo)
  | [] => some []
  | j :: rest =>
      match deserializeTodo j, deserializeList rest with
      | some t, some ts => some (t :: ts)
      | _, _ => none

/-- Modelled from the spec: interpreting a stored JSON value as the expected
array-of-tasks shape; `none` when the value is not such an array. -/
def deserializeTodos : Json → Option (List Todo)
  | Json.arr elems => deserializeList elems
  | _ => none

/-- The body of the load effect in `App.tsx` (inside `try`): read the blob at
`"@todos"` and the string at `"@theme"`; if a todos blob is present, parse it
(`JSON.parse` may throw, which aborts the rest of the body); then set the
dark flag when the theme string equals `"dark"`. The todos state is dynamic
in JS, so it is carried as a `Json` value; the initial state is the empty
array. -/
def loadBody (saved : Option Blob) (savedTheme : Option String) :
    Except Unit (Json × Bool) :=
  match saved with
  | none => Except.ok (serializeTodos [], savedTheme == some "dark")
  | some b =>
      match jsonParse b with
      | Except.error e => Except.error e
      | Except.ok j => Except.ok (j, savedTheme == some "dark")

/-- The load effect of `App.tsx` including its `catch`: on any thrown error
the state setters have not run, so the state stays at its initial values
(empty list, light theme); the error is only logged. -/
def loadApp (saved : Option Blob) (savedTheme : Option String) : Json × Bool :=
  match loadBody saved savedTheme with
  | Except.ok st => st
  | Except.error _ => (serializeTodos [], false)

/-- Handler `saveTodos` from `App.tsx`:
`try \x7b await AsyncStorage.setItem(key, JSON.stringify(newTodos)); setTodos(newTodos) \x7d catch \x7b log \x7d`.
`writeOk` models whether the store write succeeds; when it fails (the awaited
promise rejects), `setTodos` is skipped, so both the in-memory list and the
store keep their prior values. The result is the pair
(in-memory todos, stored blob) after the call. -/
def saveTodos (writeOk : Bool) (mem : List Todo) (store : Option Blob)
    (newTodos : List Todo) : List Todo × Option Blob :=
  if writeOk then (newTodos, some (Blob.json (serializeTodos newTodos)))
  else (mem, store)

/-- One user intent hitting the task-list state, as wired in `App.tsx`.
Each add carries the `Date.now()` timestamp at which it runs. -/
inductive Op where
  | add (input : String) (now : Nat)
  | toggle (i : String)
  | del (i : String)
  | reorder (payload : List Todo)
deriving Repr

/-- The new list each handler computes from the current one. -/
def applyOp (st : List Todo) : Op → List Todo
  | Op.add input now => addTodo input now st
  | Op.toggle i => toggleComplete i st
  | Op.del i => deleteTodo i st
  | Op.reorder payload => onDragEnd payload st

/-- Running a sequence of intents from a starting list. -/
def run : List Todo → List Op → List Todo
  | st, [] => st
  | st, op :: ops => run (applyOp st op) ops

/-- The timestamps of the add intents of a sequence, in order. -/
def addTimes : List Op → List Nat
  | [] => []
  | Op.add _ now :: ops => now :: addTimes ops
  | Op.toggle _ :: ops => addTimes ops
  | Op.del _ :: ops => addTimes ops
  | Op.reorder _ :: ops => addTimes ops

/-- A run is drag-legal when every reorder payload is a permutation of the
list it replaces — what the drag gesture produces when no filter hides
part of the list. -/
def legalReorders : List Todo → List Op → Prop
  | _, [] => True
  | st, Op.add input now :: ops => legalReorders (addTodo input now st) ops
  | st, Op.toggle i :: ops => legalReorders (toggleComplete i st) ops
  | st, Op.del i :: ops => legalReorders (deleteTodo i st) ops
  | st, Op.reorder payload :: ops => payload.Perm st ∧ legalReorders payload ops

/-- The digit value of a decimal digit character. -/
def charToDigit (c : Char) : Nat := c.toNat - 48

/-- The number denoted by a list of decimal digit characters, most
significant first. -/
def valOfDigits (ds : List Char) : Nat :=
  ds.foldl (fun a c => 10 * a + charToDigit c) 0

theorem valOfDigits_append (l : List Char) (c : Char) :
    valOfDigits (l ++ [c]) = 10 * valOfDigits l + charToDigit c := by
  simp [valOfDigits, List.foldl_append]

theorem digitChar_val (m : Nat) (h : m < 10) :
    charToDigit (Nat.digitChar m) = m := by
  interval_cases m <;> decide

theorem toDigitsCore_shift : ∀ (fuel n : Nat) (ds : List Char), n < 10 ^ fuel →
    Nat.toDigitsCore 10 fuel n ds = Nat.toDigitsCore 10 fuel n [] ++ ds := by
  intro fuel
  induction fuel with
  | zero => intro n ds _; simp [Nat.toDigitsCore]
  | succ fuel ih =>
    intro n ds h
    simp only [Nat.toDigitsCore]
    by_cases h10 : n / 10 = 0
    · simp [h10]
    · rw [if_neg h10, if_neg h10]
      have hlt : n / 10 < 10 ^ fuel := by
        rw [Nat.div_lt_iff_lt_mul (by norm_num)]
        calc n < 10 ^ (fuel + 1) := h
          _ = 10 ^ fuel * 10 := by rw [pow_succ]
      rw [ih (n / 10) (Nat.digitChar (n % 10) :: ds) hlt,
        ih (n / 10) [Nat.digitChar (n % 10)] hlt]
      simp

theorem toDigitsCore_val : ∀ (fuel n : Nat), n < 10 ^ fuel →
    valOfDigits (Nat.toDigitsCore 10 fuel n []) = n := by
  intro fuel
  induction fuel with
  | zero =>
    intro n h
    interval_cases n
    simp [Nat.toDigitsCore, valOfDigits]
  | succ fuel ih =>
    intro n h
    simp only [Nat.toDigitsCore]
    by_cases h10 : n / 10 = 0
    · rw [if_pos h10]
      have hn : n < 10 := by
        have := Nat.div_add_mod n 10
        have hm : n % 10 < 10 := Nat.mod_lt n (by norm_num)
        omega
      have hv : valOfDigits [Nat.digitChar (n % 10)] =
          charToDigit (Nat.digitChar (n % 10)) := by
        simp [valOfDigits]
      rw [hv, digitChar_val (n % 10) (Nat.mod_lt n (by norm_num)),
        Nat.mod_eq_of_lt hn]
    · rw [if_neg h10]
      have hlt : n / 10 < 10 ^ fuel := by
        rw [Nat.div_lt_iff_lt_mul (by norm_num)]
        calc n < 10 ^ (fuel + 1) := h
          _ = 10 ^ fuel * 10 := by rw [pow_succ]
      rw [toDigitsCore_shift fuel (n / 10) [Nat.digitChar (n % 10)] hlt,
        valOfDigits_append, ih (n / 10) hlt,
        digitChar_val (n % 10) (Nat.mod_lt n (by norm_num))]
      exact Nat.div_add_mod n 10

theorem valOfDigits_toDigits (n : Nat) : valOfDigits (Nat.toDigits 10 n) = n := by
  have h : n < 10 ^ (n + 1) :=
    lt_of_lt_of_le (Nat.lt_pow_self (by norm_num) n)
      (Nat.pow_le_pow_right (by norm_num) (Nat.le_succ n))
  exact toDigitsCore_val (n + 1) n h

/-- Decimal printing of naturals is injective: distinct timestamps produce
distinct id strings. -/
theorem repr_injective : Function.Injective Nat.repr := by
  intro m n h
  have hd : Nat.toDigits 10 m = Nat.toDigits 10 n := by
    have h2 := congrArg String.data h
    simpa [Nat.repr, List.asString] using h2
  have h3 := congrArg valOfDigits hd
  rwa [valOfDigits_toDigits, valOfDigits_toDigits] at h3

theorem toggleComplete_map_id (i : String) (todos : List Todo) :
    (toggleComplete i todos).map Todo.id = todos.map Todo.id := by
  simp only [toggleComplete, List.map_map]
  apply List.map_congr_left
  intro t _
  by_cases h : t.id = i <;> simp [h]

theorem deleteTodo_ids_sublist (i : String) (todos : List Todo) :
    ((deleteTodo i todos).map Todo.id).Sublist (todos.map Todo.id) :=
  List.Sublist.map Todo.id (List.filter_sublist todos)

theorem run_ids_nodup : ∀ (ops : List Op) (st : List Todo),
    (st.map Todo.id).Nodup →
    (addTimes ops).Nodup →
    (∀ n ∈ addTimes ops, Nat.repr n ∉ st.map Todo.id) →
    legalReorders st ops →
    ((run st ops).map Todo.id).Nodup := by
  intro ops
  induction ops with
  | nil =>
    intro st hnd _ _ _
    simpa [run] using hnd
  | cons op ops ih =>
    intro st hnd hts hfresh hleg
    cases op with
    | add input now =>
      simp only [run, applyOp]
      simp only [addTimes, List.nodup_cons] at hts
      simp only [addTimes] at hfresh
      simp only [legalReorders] at hleg
      by_cases htrim : jsTrim input = ""
      · have hst : addTodo input now st = st := by simp [addTodo, htrim]
        rw [hst] at hleg ⊢
        exact ih st hnd hts.2
          (fun n hn => hfresh n (List.mem_cons_of_mem _ hn)) hleg
      · have hst : addTodo input now st =
            st ++ [{ id := Nat.repr now, text := jsTrim input, completed := false }] := by
          simp [addTodo, htrim]
        rw [hst] at hleg ⊢
        have hids : ((st ++
            [({ id := Nat.repr now, text := jsTrim input, completed := false } : Todo)]).map
              Todo.id).Nodup := by
          rw [List.map_append, List.nodup_append]
          refine ⟨hnd, List.nodup_singleton _, ?_⟩
          intro x hx hx2
          simp only [List.map_cons, List.map_nil, List.mem_singleton] at hx2
          subst hx2
          exact hfresh now (List.mem_cons_self _ _) hx
        refine ih _ hids hts.2 ?_ hleg
        intro n hn h
        rw [List.map_append, List.mem_append] at h
        rcases h with h | h
        · exact hfresh n (List.mem_cons_of_mem _ hn) h
        · simp only [List.map_cons, List.map_nil, List.mem_singleton] at h
          have hne : n ≠ now := fun he => hts.1 (he ▸ hn)
          exact hne (repr_injective h)
    | toggle i =>
      simp only [run, applyOp]
      simp only [addTimes] at hts hfresh
      simp only [legalReorders] at hleg
      refine ih _ ?_ hts ?_ hleg
      · rw [toggleComplete_map_id]; exact hnd
      · intro n hn; rw [toggleComplete_map_id]; exact hfresh n hn
    | del i =>
      simp only [run, applyOp]
      simp only [addTimes] at hts hfresh
      simp only [legalReorders] at hleg
      refine ih _ (hnd.sublist (deleteTodo_ids_sublist i st)) hts ?_ hleg
      intro n hn h
      exact hfresh n hn ((deleteTodo_ids_sublist i st).subset h)
    | reorder payload =>
      simp only [run, applyOp, onDragEnd]
      simp only [addTimes] at hts hfresh
      simp only [legalReorders] at hleg
      obtain ⟨hperm, hleg2⟩ := hleg
      have hpm : (payload.map Todo.id).Perm (st.map Todo.id) := hperm.map Todo.id
      refine ih payload (hpm.nodup_iff.mpr hnd) hts ?_ hleg2
      intro n hn h
      exact hfresh n hn (hpm.mem_iff.mp h)

/-- Claim C1: fails on the code — the drag handler does not guard the
payload. `onDragEnd` hands whatever list the gesture library returns
straight to `saveTodos`: with the active filter on, that list is the
filtered list, whose id set is a proper subset of the current ids, and the
handler replaces the whole list with it, silently deleting the completed
task instead of rejecting the payload. -/
theorem onDragEnd_unguarded :
    filteredTodos Filter.active
        [{ id := "1", text := "a", completed := false },
         { id := "2", text := "b", completed := true }] =
      [{ id := "1", text := "a", completed := false }] ∧
    onDragEnd [{ id := "1", text := "a", completed := false }]
        [{ id := "1", text := "a", completed := false },
         { id := "2", text := "b", completed := true }] =
      [{ id := "1", text := "a", completed := false }] ∧
    onDragEnd [{ id := "1", text := "a", completed := false }]
        [{ id := "1", text := "a", completed := false },
         { id := "2", text := "b", completed := true }] ≠
      [{ id := "1", text := "a", completed := false },
       { id := "2", text := "b", completed := true }] ∧
    "2" ∈ ([({ id := "1", text := "a", completed := false } : Todo),
            { id := "2", text := "b", completed := true }].map Todo.id) ∧
    "2" ∉ ([({ id := "1", text := "a", completed := false } : Todo)].map Todo.id) := by
  decide

/-- Claim C2 counterexample: when the store write fails, the in-memory list
has NOT advanced — `setTodos` is reached only after the awaited write
succeeds, so a failed write leaves the prior (here empty) list in memory. -/
theorem saveTodos_failedWrite_cex :
    (saveTodos false [] none [{ id := "1", text := "a", completed := false }]).1 = [] ∧
    (saveTodos false [] none [{ id := "1", text := "a", completed := false }]).1 ≠
      [{ id := "1", text := "a", completed := false }] := by
  decide

/-- Claim C2 (amended): persistence is write-through, not fire-and-forget —
a failed write leaves both the in-memory list and the store at their prior
values, and a successful write advances the in-memory list to the mutated
state and stores its serialized snapshot. -/
theorem saveTodos_write_through (mem newTodos : List Todo) (store : Option Blob) :
    saveTodos false mem store newTodos = (mem, store) ∧
    (saveTodos true mem store newTodos).1 = newTodos ∧
    (saveTodos true mem store newTodos).2 =
      some (Blob.json (serializeTodos newTodos)) :=
  ⟨rfl, rfl, rfl⟩

/-- Claim C3 counterexample: two adds in the same millisecond get the same
`Date.now()` id, and an unvalidated reorder payload can itself carry
duplicate ids; either way the resulting list repeats an id. -/
theorem run_duplicate_ids_cex :
    ¬ (((run [] [Op.add "a" 5, Op.add "b" 5]).map Todo.id).Nodup) ∧
    ¬ (((run [] [Op.add "a" 5,
        Op.reorder [{ id := "7", text := "x", completed := false },
                    { id := "7", text := "x", completed := false }]]).map
          Todo.id).Nodup) := by
  decide

/-- Claim C3 (amended): starting from the empty list, after any sequence of
add, toggle, delete and reorder intents, every id in the resulting list is
unique, provided distinct adds carry distinct timestamps and every reorder
payload is a permutation of the list it replaces (what the drag gesture
produces when no filter hides part of the list). -/
theorem run_ids_unique (ops : List Op)
    (hts : (addTimes ops).Nodup)
    (hleg : legalReorders [] ops) :
    ((run [] ops).map Todo.id).Nodup :=
  run_ids_nodup ops [] (by simp) hts (by simp) hleg

theorem run_ids_unique_witness :
    ((run [] [Op.add "a" 5, Op.add "b" 6, Op.toggle "5", Op.del "6"]).map
      Todo.id).Nodup :=
  run_ids_unique [Op.add "a" 5, Op.add "b" 6, Op.toggle "5", Op.del "6"]
    (by decide) (by simp [legalReorders])

/-- Claim C4 counterexample: a stored blob that is valid JSON but not the
expected array shape is not replaced by the empty list — `JSON.parse`
succeeds, so no exception fires and the unvalidated value is installed as
the todos state. -/
theorem load_wrongShape_cex :
    deserializeTodos (Json.num 5) = none ∧
    (loadApp (some (Blob.json (Json.num 5))) none).1 = Json.num 5 ∧
    (loadApp (some (Blob.json (Json.num 5))) none).1 ≠ serializeTodos [] := by
  refine ⟨rfl, rfl, fun h => ?_⟩
  exact Json.noConfusion h

/-- Claim C4 (amended): load never propagates an exception; an absent blob
leaves the empty list, and a blob that fails JSON parsing leaves the empty
list and the default theme, the exception stopping at the catch. The
expected-shape half of the claim fails: shape is not validated, a parseable
blob of any shape is installed verbatim. -/
theorem load_failsSoft (theme : Option String) :
    loadApp none theme = (serializeTodos [], theme == some "dark") ∧
    loadApp (some Blob.malformed) theme = (serializeTodos [], false) :=
  ⟨rfl, rfl⟩

/-- Claim C5: add with whitespace-only text leaves the list unchanged;
otherwise add appends exactly one new uncompleted task at the end, leaves
all existing tasks unchanged, and grows the length by exactly one. -/
theorem addTodo_spec (input : String) (now : Nat) (todos : List Todo) :
    (jsTrim input = "" → addTodo input now todos = todos) ∧
    (jsTrim input ≠ "" →
      addTodo input now todos =
        todos ++ [{ id := Nat.repr now, text := jsTrim input, completed := false }] ∧
      (addTodo input now todos).length = todos.length + 1 ∧
      (addTodo input now todos).take todos.length = todos) := by
  constructor
  · intro h; simp [addTodo, h]
  · intro h
    have heq : addTodo input now todos =
        todos ++ [{ id := Nat.repr now, text := jsTrim input, completed := false }] := by
      simp [addTodo, h]
    refine ⟨heq, ?_, ?_⟩
    · rw [heq]; simp
    · rw [heq]; exact List.take_left _ _

theorem addTodo_spec_witness :
    addTodo "   " 7 [] = [] ∧
    addTodo " hi " 7 [{ id := "1", text := "a", completed := true }] =
      [{ id := "1", text := "a", completed := true },
       { id := "7", text := "hi", completed := false }] := by
  constructor
  · exact (addTodo_spec "   " 7 []).1 (by decide)
  · have h := ((addTodo_spec " hi " 7
      [{ id := "1", text := "a", completed := true }]).2 (by decide)).1
    rw [h]; decide

/-- Claim C6: over a task list with unique ids (the TaskList data-model
invariant), toggling an absent id is a no-op returning the list unchanged,
and toggling a present id flips exactly that task in place, leaving every
other task and the order untouched. -/
theorem toggleComplete_spec (i : String) (todos : List Todo)
    (hnodup : (todos.map Todo.id).Nodup) :
    ((∀ t ∈ todos, t.id ≠ i) → toggleComplete i todos = todos) ∧
    (∀ l₁ t l₂, todos = l₁ ++ t :: l₂ → t.id = i →
      toggleComplete i todos = l₁ ++ { t with completed := !t.completed } :: l₂) := by
  constructor
  · intro habs
    simp only [toggleComplete]
    conv_rhs => rw [← List.map_id todos]
    apply List.map_congr_left
    intro t ht
    simp [habs t ht]
  · intro l₁ t l₂ hdec hid
    subst hdec
    subst hid
    rw [List.map_append, List.map_cons, List.nodup_append] at hnodup
    obtain ⟨h1, h2, hdisj⟩ := hnodup
    rw [List.nodup_cons] at h2
    simp only [toggleComplete, List.map_append, List.map_cons]
    have hl1 : l₁.map (fun x =>
        if x.id = t.id then { x with completed := !x.completed } else x) = l₁ := by
      conv_rhs => rw [← List.map_id l₁]
      apply List.map_congr_left
      intro x hx
      have hne : x.id ≠ t.id := fun he =>
        hdisj (List.mem_map_of_mem Todo.id hx)
          (by rw [he]; exact List.mem_cons_self _ _)
      simp [hne]
    have hl2 : l₂.map (fun x =>
        if x.id = t.id then { x with completed := !x.completed } else x) = l₂ := by
      conv_rhs => rw [← List.map_id l₂]
      apply List.map_congr_left
      intro x hx
      have hne : x.id ≠ t.id := fun he =>
        h2.1 (by rw [← he]; exact List.mem_map_of_mem Todo.id hx)
      simp [hne]
    rw [hl1, hl2]
    simp

theorem toggleComplete_spec_witness :
    toggleComplete "2" [{ id := "1", text := "a", completed := false },
                        { id := "2", text := "b", completed := false }] =
      [{ id := "1", text := "a", completed := false },
       { id := "2", text := "b", completed := true }] := by
  have h := (toggleComplete_spec "2"
      [{ id := "1", text := "a", completed := false },
       { id := "2", text := "b", completed := false }] (by decide)).2
    [{ id := "1", text := "a", completed := false }]
    { id := "2", text := "b", completed := false } [] rfl rfl
  simpa using h

/-- Claim C7: filtering is order-preserving and exact — the active view is
the subsequence of uncompleted tasks in original relative order, the
completed view the subsequence of completed ones, and the all view is the
full list itself. -/
theorem filteredTodos_spec (todos : List Todo) :
    filteredTodos Filter.all todos = todos ∧
    filteredTodos Filter.active todos = todos.filter (fun t => !t.completed) ∧
    filteredTodos Filter.completed todos = todos.filter (fun t => t.completed) ∧
    (filteredTodos Filter.active todos).Sublist todos ∧
    (filteredTodos Filter.completed todos).Sublist todos ∧
    (∀ t, t ∈ filteredTodos Filter.active todos ↔ t ∈ todos ∧ t.completed = false) ∧
    (∀ t, t ∈ filteredTodos Filter.completed todos ↔ t ∈ todos ∧ t.completed = true) := by
  refine ⟨?_, ?_, ?_, ?_, ?_, ?_, ?_⟩
  · simp [filteredTodos]
  · simp [filteredTodos]
  · simp [filteredTodos]
  · exact List.filter_sublist todos
  · exact List.filter_sublist todos
  · intro t; simp [filteredTodos, List.mem_filter]
  · intro t; simp [filteredTodos, List.mem_filter]

/-- Claim C8: the activeCount of the derived view counts the uncompleted
tasks of the full unfiltered list, and changing the filter never changes
it. -/
theorem derivedView_activeCount (todos : List Todo) (f g : Filter) :
    (derivedView f todos).activeCount = todos.countP (fun t => !t.completed) ∧
    (derivedView f todos).activeCount = (derivedView g todos).activeCount := by
  constructor
  · simp [derivedView, activeCount, List.countP_eq_length_filter]
  · rfl

theorem deserializeTodo_serializeTodo (t : Todo) :
    deserializeTodo (serializeTodo t) = some t := rfl

theorem deserializeList_serialize (l : List Todo) :
    deserializeList (l.map serializeTodo) = some l := by
  induction l with
  | nil => rfl
  | cons t ts ih => simp [deserializeList, deserializeTodo_serializeTodo, ih]

/-- Claim C9: the serialize/deserialize round trip is the identity — storing
the serialized array and reading it back yields a structurally equal task
list, every id, text and completed field in the same position. -/
theorem serialize_roundTrip (todos : List Todo) :
    jsonParse (Blob.json (serializeTodos todos)) = Except.ok (serializeTodos todos) ∧
    deserializeTodos (serializeTodos todos) = some todos := by
  refine ⟨rfl, ?_⟩
  simp [serializeTodos, deserializeTodos, deserializeList_serialize]

/-- Claim C10: when the stored todos blob fails to parse, the shared try
block aborts before the theme check, so isDark stays false whatever the
theme key holds — while with no todos blob the value "dark" does set the
flag. -/
theorem load_malformed_skips_theme (theme : Option String) :
    (loadApp (some Blob.malformed) theme).2 = false ∧
    (loadApp none (some "dark")).2 = true :=
  ⟨rfl, rfl⟩

end TodoApp
